import Mathlib

/-!
# Verification of the citation-dataset extractor (`pdf-to-gpt.py`)

Shallow embedding of the program's core: the SharePoint link registry
loader (`load_sharepoint_links`), the per-page PDF citation extractor
(`extract_pdf_info`) and the web-page citation extractor
(`extract_web_info`).  I/O effects (opening the CSV, reading the PDF,
fetching the URL) are modelled by passing the outcome of the effect as an
explicit argument; everything else follows the Python source line by line.
-/

set_option maxHeartbeats 1000000

namespace PdfToGpt

/-! ## Text normalization (Python `str.strip` and `re.sub(r'\s+', ' ', -)`) -/

/-- Characters treated as whitespace by Python's `str.strip()` and by the
regex class `\s` on `str` patterns: the ASCII whitespace characters plus the
Unicode whitespace set used by CPython. -/
def isPyWS (c : Char) : Bool :=
  c = ' ' || c = '\t' || c = '\n' || c = '\r' || c = '\x0b' || c = '\x0c' ||
  c = '\x1c' || c = '\x1d' || c = '\x1e' || c = '\x1f' || c = '\x85' ||
  c = '\xa0' || c = '\u1680' || ('\u2000' ≤ c && c ≤ '\u200a') ||
  c = '\u2028' || c = '\u2029' || c = '\u202f' || c = '\u205f' || c = '\u3000'

/-- `re.sub(r'\s+', ' ', text)`: every maximal run of whitespace characters
is replaced by a single space.  A run is collapsed at its last character;
earlier characters of the run are dropped. -/
def collapseWS : List Char → List Char
  | [] => []
  | [c] => if isPyWS c then [' '] else [c]
  | a :: b :: t =>
    if isPyWS a then
      if isPyWS b then collapseWS (b :: t)
      else ' ' :: collapseWS (b :: t)
    else a :: collapseWS (b :: t)

/-- Python `str.strip()` on a character list: drop whitespace from both
ends. -/
def pyStripList (l : List Char) : List Char :=
  ((l.dropWhile isPyWS).reverse.dropWhile isPyWS).reverse

/-- Python `str.strip()`. -/
def pyStrip (s : String) : String :=
  ⟨pyStripList s.data⟩

/-- The text normalization both extractors apply:
`re.sub(r'\s+', ' ', text).strip()`. -/
def pyNormalize (s : String) : String :=
  ⟨pyStripList (collapseWS s.data)⟩

/-- Python `str.lower()`, modelled on the ASCII range (the source only ever
compares ASCII filenames). -/
def lowerChar (c : Char) : Char :=
  if 'A' ≤ c ∧ c ≤ 'Z' then Char.ofNat (c.toNat + 32) else c

/-- Python `str.lower()`. -/
def pyLower (s : String) : String :=
  ⟨s.data.map lowerChar⟩

/-- `os.path.basename` (POSIX): the part of the path after the last
separator. -/
def basename (p : String) : String :=
  ⟨(p.data.reverse.takeWhile (fun c => c ≠ '/')).reverse⟩

/-- `os.path.splitext(name)[0]`: everything before the last dot, unless all
characters before that dot are dots (so a leading-dot name keeps its dot). -/
def splitextStem (s : String) : String :=
  let cs := s.data
  let afterDot := (cs.reverse.takeWhile (fun c => c ≠ '.')).length
  if afterDot = cs.length then s
  else
    let i := cs.length - afterDot - 1
    if (cs.take i).all (fun c => c = '.') then s else ⟨cs.take i⟩

/-! ## The link registry (`load_sharepoint_links`)

The CSV lexical layer (delegated to Python's `csv` module) is modelled by
presenting the file as a header row plus a stream of row events; a
`readError` event stands for an exception raised while reading further
input (e.g. a decode error part-way through the file), an `openError`
source for a failure before anything was read (file not found, bad
header). -/

/-- One registry value: the `title` and `web_link` strings stored for a
document name. -/
structure SPEntry where
  title : String
  web_link : String
deriving DecidableEq

/-- One event of the row stream delivered by `csv.DictReader`. -/
inductive RowEvent
  | cells (row : List String)
  | readError
deriving DecidableEq

/-- The outcome of opening the registry source. -/
inductive CsvSource
  | openError
  | stream (header : List String) (rows : List RowEvent)
deriving DecidableEq

/-- The dictionary `csv.DictReader` builds for one row, re-keyed by the
comprehension `{key.strip(): value for key, value in row.items() if key is
not None}`: cells are matched to header columns by position, a missing cell
is the `restval` `None` (inner `none`), extra cells (keyed `None`) are
dropped, and when two stripped header names collide the later column wins.
`none` means the key is absent from the dictionary; `some none` a key whose
value is `None`. -/
def rowLookup (header row : List String) (key : String) : Option (Option String) :=
  let pairs := header.enum.map (fun ih => (pyStrip ih.2, row.get? ih.1))
  (pairs.reverse.find? (fun p => p.1 == key)).map (fun p => p.2)

/-- `row.get(key, "")`: the string stored for the key, or the default `""`
when the key is absent (a present-but-`None` value is handled separately). -/
def getStr : Option (Option String) → String
  | some (some v) => v
  | _ => ""

/-- What processing one row does: skip it (missing/empty document name),
abort the load (`None.strip()` raises `AttributeError`), or add an entry. -/
inductive RowOutcome
  | skip
  | err
  | add (key : String) (entry : SPEntry)
deriving DecidableEq

/-- The body of the `for row in reader` loop: look up `"Document Name"`
(skip the row when missing, `None` or empty), then strip `"Title"` and
`"Web Link"` — which raises when the cell holds the `restval` `None` —
and produce the normalized key and trimmed entry. -/
def processRow (header row : List String) : RowOutcome :=
  match rowLookup header row "Document Name" with
  | none => .skip
  | some none => .skip
  | some (some s) =>
    if s = "" then .skip
    else
      let tval := rowLookup header row "Title"
      let wval := rowLookup header row "Web Link"
      if tval = some none ∨ wval = some none then .err
      else .add (pyLower (pyStrip s)) ⟨pyStrip (getStr tval), pyStrip (getStr wval)⟩

/-- `mapping[doc_name] = {...}` on an insertion-ordered dictionary: replace
the value in place when the key exists, append otherwise. -/
def insertEntry (m : List (String × SPEntry)) (k : String) (e : SPEntry) :
    List (String × SPEntry) :=
  if m.any (fun p => p.1 == k) then
    m.map (fun p => if p.1 == k then (k, e) else p)
  else m ++ [(k, e)]

/-- The row loop: accumulate entries until the stream ends or an exception
(read error, or `.err` from a short row) lands in the `except` handler,
which returns the mapping built so far. -/
def loadRows (header : List String) : List RowEvent → List (String × SPEntry) →
    List (String × SPEntry)
  | [], m => m
  | .readError :: _, m => m
  | .cells r :: rest, m =>
    match processRow header r with
    | .err => m
    | .skip => loadRows header rest m
    | .add k e => loadRows header rest (insertEntry m k e)

/-- `load_sharepoint_links`: an open failure yields the initial empty
mapping; otherwise the row loop runs over the stream. -/
def load_sharepoint_links : CsvSource → List (String × SPEntry)
  | .openError => []
  | .stream header rows => loadRows header rows []

/-- `sharepoint_links.get(file_key)`. -/
def spGet (m : List (String × SPEntry)) (k : String) : Option SPEntry :=
  (m.find? (fun p => p.1 == k)).map (fun p => p.2)

/-- The header the source's docstring requires. -/
def stdHeader : List String := ["Document Name", "Title", "Web Link"]

/-! ## Citation records and the two extractors -/

/-- The `source_type` discriminator of a citation record. -/
inductive SourceType
  | pdf
  | web
deriving DecidableEq

/-- One emitted citation dictionary.  `document_title` and `text` are
always-present strings; `page_number`, `web_link` and `url` are `none`
exactly when the corresponding key is absent from the dictionary (the code
never stores `None` under `web_link`; it stores `None` under `page_number`
only for web records, which the schema treats as the absent marker). -/
structure CitationRecord where
  source_type : SourceType
  document_title : String
  page_number : Option Nat
  text : String
  web_link : Option String
  url : Option String
deriving DecidableEq

/-- What `PyPDF2.PdfReader` yields on success: the metadata title —
`none` when `reader.metadata` is `None` or its `.title` is `None` — and
per page the result of `page.extract_text()` (`none` for `None`). -/
structure PdfDoc where
  metaTitle : Option String
  pages : List (Option String)
deriving DecidableEq

/-- `extract_pdf_info(pdf_path, sharepoint_links)`; `opened` is the outcome
of `open(pdf_path, 'rb')` + `PyPDF2.PdfReader(f)`, whose failure lands in
the `except` handler and returns the (empty) accumulated list. -/
def extract_pdf_info (pdf_path : String) (sharepoint_links : List (String × SPEntry))
    (opened : Except Unit PdfDoc) : List CitationRecord :=
  let file_name := pyStrip (basename pdf_path)
  let file_key := pyLower file_name
  let sp_data := spGet sharepoint_links file_key
  match opened with
  | .error _ => []
  | .ok r =>
    let doc_title :=
      match r.metaTitle with
      | some t => if t ≠ "" then t else splitextStem file_name
      | none => splitextStem file_name
    let doc_title :=
      match sp_data with
      | some e => e.title
      | none => doc_title
    r.pages.enum.map (fun ip =>
      { source_type := .pdf
        document_title := doc_title
        page_number := some (ip.1 + 1)
        text := pyNormalize (ip.2.getD "")
        web_link :=
          match sp_data with
          | some e => if e.web_link ≠ "" then some e.web_link else none
          | none => none
        url := none })

/-- What a successful HTTP GET + `BeautifulSoup` parse yields: the
`get_text()` of the `<title>` tag when one is found, and the
`soup.stripped_strings` sequence. -/
structure WebPage where
  titleTag : Option String
  strippedStrings : List String
deriving DecidableEq

/-- `extract_web_info(url)`; `fetched` is the outcome of `requests.get` +
`raise_for_status` + parsing, whose failure lands in the `except` handler
and returns the (empty) accumulated list. -/
def extract_web_info (url : String) (fetched : Except Unit WebPage) :
    List CitationRecord :=
  match fetched with
  | .error _ => []
  | .ok soup =>
    let doc_title :=
      match soup.titleTag with
      | some t => pyStrip t
      | none => url
    let full_text := pyNormalize (String.intercalate " " soup.strippedStrings)
    [{ source_type := .web
       document_title := doc_title
       page_number := none
       text := full_text
       web_link := none
       url := some url }]

/-- The key a full row contributes to the mapping: its first
(document-name) cell, trimmed and lower-cased. -/
def keyOfRow (r : List String) : String := pyLower (pyStrip (r.headD ""))

/-- The mapping entry a full row contributes: its key with the trimmed
title and web-link cells. -/
def entryOfRow (r : List String) : String × SPEntry :=
  (keyOfRow r, ⟨pyStrip (r.getD 1 ""), pyStrip (r.getD 2 "")⟩)

/-- No two adjacent characters are both whitespace: the shape `re.sub`
leaves text in. -/
def RNW (a b : Char) : Prop := ¬(isPyWS a = true ∧ isPyWS b = true)

end PdfToGpt

namespace PdfToGpt

/-! ## Idempotence of the text normalization -/

theorem collapse_cons_not_ws (b : Char) (t : List Char) (hb : isPyWS b = false) :
    collapseWS (b :: t) = b :: collapseWS t := by
  cases t with
  | nil => simp [collapseWS, hb]
  | cons c t' => simp [collapseWS, hb]

theorem collapse_head_ws :
    ∀ (t : List Char) (b : Char), isPyWS b = true →
      (collapseWS (b :: t)).head? = some ' '
  | [], b, hb => by simp [collapseWS, hb]
  | c :: t', b, hb => by
    by_cases hc : isPyWS c
    · rw [show collapseWS (b :: c :: t') = collapseWS (c :: t') by
        simp [collapseWS, hb, hc]]
      exact collapse_head_ws t' c hc
    · simp [collapseWS, hb, hc]

theorem collapse_ws_space :
    ∀ l : List Char, ∀ c ∈ collapseWS l, isPyWS c = true → c = ' '
  | [], c, hc, _ => by simp [collapseWS] at hc
  | [a], c, hc, hw => by
    by_cases ha : isPyWS a
    · simp [collapseWS, ha] at hc
      exact hc
    · simp [collapseWS, ha] at hc
      rw [hc] at hw
      exact absurd hw (by simp [ha])
  | a :: b :: t, c, hc, hw => by
    by_cases ha : isPyWS a
    · by_cases hb : isPyWS b
      · rw [show collapseWS (a :: b :: t) = collapseWS (b :: t) by
          simp [collapseWS, ha, hb]] at hc
        exact collapse_ws_space (b :: t) c hc hw
      · rw [show collapseWS (a :: b :: t) = ' ' :: collapseWS (b :: t) by
          simp [collapseWS, ha, hb]] at hc
        rcases List.mem_cons.mp hc with h | h
        · exact h
        · exact collapse_ws_space (b :: t) c h hw
    · rw [show collapseWS (a :: b :: t) = a :: collapseWS (b :: t) by
        simp [collapseWS, ha]] at hc
      rcases List.mem_cons.mp hc with h | h
      · rw [h] at hw
        exact absurd hw (by simp [ha])
      · exact collapse_ws_space (b :: t) c h hw

theorem collapse_chain :
    ∀ l : List Char, List.Chain' RNW (collapseWS l)
  | [] => by simp [collapseWS]
  | [a] => by by_cases ha : isPyWS a <;> simp [collapseWS, ha]
  | a :: b :: t => by
    have ih := collapse_chain (b :: t)
    by_cases ha : isPyWS a
    · by_cases hb : isPyWS b
      · rw [show collapseWS (a :: b :: t) = collapseWS (b :: t) by
          simp [collapseWS, ha, hb]]
        exact ih
      · rw [show collapseWS (a :: b :: t) = ' ' :: collapseWS (b :: t) by
          simp [collapseWS, ha, hb]]
        refine List.chain'_cons'.mpr ⟨?_, ih⟩
        intro y hy
        rw [collapse_cons_not_ws b t (by simpa using hb)] at hy
        simp at hy
        rw [← hy]
        exact fun h => by simp [hb] at h
    · rw [show collapseWS (a :: b :: t) = a :: collapseWS (b :: t) by
        simp [collapseWS, ha]]
      refine List.chain'_cons'.mpr ⟨?_, ih⟩
      intro y _
      exact fun h => by simp [ha] at h

theorem collapse_fix :
    ∀ l : List Char, List.Chain' RNW l → (∀ c ∈ l, isPyWS c = true → c = ' ') →
      collapseWS l = l
  | [], _, _ => rfl
  | [a], _, hsp => by
    by_cases ha : isPyWS a
    · have : a = ' ' := hsp a (by simp) ha
      simp [collapseWS, ha, this]
    · simp [collapseWS, ha]
  | a :: b :: t, hch, hsp => by
    have ih := collapse_fix (b :: t) hch.tail
      (fun c hc hw => hsp c (List.mem_cons_of_mem a hc) hw)
    by_cases ha : isPyWS a
    · by_cases hb : isPyWS b
      · exact absurd ⟨ha, hb⟩ (List.chain'_cons.mp hch).1
      · have ha' : a = ' ' := hsp a (by simp) ha
        rw [show collapseWS (a :: b :: t) = ' ' :: collapseWS (b :: t) by
          simp [collapseWS, ha, hb], ih, ha']
    · rw [show collapseWS (a :: b :: t) = a :: collapseWS (b :: t) by
        simp [collapseWS, ha], ih]

theorem chain_of_reverse {l : List Char} (h : List.Chain' RNW l) :
    List.Chain' RNW l.reverse :=
  List.chain'_reverse.mpr (h.imp (fun _ _ hab => fun ⟨x, y⟩ => hab ⟨y, x⟩))

theorem strip_chain (l : List Char) (h : List.Chain' RNW l) :
    List.Chain' RNW (pyStripList l) := by
  unfold pyStripList
  have h1 : List.Chain' RNW (l.dropWhile isPyWS) :=
    h.suffix (List.dropWhile_suffix _)
  have h2 : List.Chain' RNW ((l.dropWhile isPyWS).reverse.dropWhile isPyWS) :=
    (chain_of_reverse h1).suffix (List.dropWhile_suffix _)
  exact chain_of_reverse h2

theorem strip_subset (l : List Char) : ∀ c ∈ pyStripList l, c ∈ l := by
  intro c hc
  unfold pyStripList at hc
  rw [List.mem_reverse] at hc
  have hc2 := (List.dropWhile_sublist (l := (l.dropWhile isPyWS).reverse)
    isPyWS).subset hc
  rw [List.mem_reverse] at hc2
  exact (List.dropWhile_sublist isPyWS).subset hc2

theorem dropWhile_idem (p : Char → Bool) (l : List Char) :
    (l.dropWhile p).dropWhile p = l.dropWhile p := by
  induction l with
  | nil => rfl
  | cons c t ih =>
    rw [List.dropWhile_cons]
    by_cases hp : p c
    · rw [if_pos hp]
      exact ih
    · rw [if_neg hp, List.dropWhile_cons, if_neg hp]

theorem dropWhile_fix_of_append (p : Char → Bool) (z w : List Char)
    (h : (z ++ w).dropWhile p = z ++ w) : z.dropWhile p = z := by
  cases z with
  | nil => rfl
  | cons c z' =>
    rw [List.cons_append, List.dropWhile_cons] at h
    by_cases hp : p c
    · rw [if_pos hp] at h
      have hlen := congrArg List.length h
      have hle := ((List.dropWhile_suffix (l := z' ++ w) p).sublist).length_le
      rw [List.length_cons] at hlen
      omega
    · rw [List.dropWhile_cons, if_neg hp]

theorem strip_fix (m : List Char) (h1 : m.dropWhile isPyWS = m)
    (h2 : m.reverse.dropWhile isPyWS = m.reverse) : pyStripList m = m := by
  unfold pyStripList
  rw [h1, h2, List.reverse_reverse]

theorem strip_idem (l : List Char) : pyStripList (pyStripList l) = pyStripList l := by
  have hrev : (pyStripList l).reverse = (l.dropWhile isPyWS).reverse.dropWhile isPyWS := by
    unfold pyStripList
    rw [List.reverse_reverse]
  have h2 : (pyStripList l).reverse.dropWhile isPyWS = (pyStripList l).reverse := by
    rw [hrev]
    exact dropWhile_idem _ _
  have h1 : (pyStripList l).dropWhile isPyWS = pyStripList l := by
    have hsfx : (pyStripList l).reverse <:+ (l.dropWhile isPyWS).reverse := by
      rw [hrev]
      exact List.dropWhile_suffix _
    obtain ⟨w, hw⟩ := (List.reverse_suffix).mp hsfx
    have hAfix : (pyStripList l ++ w).dropWhile isPyWS = pyStripList l ++ w := by
      rw [hw]
      exact dropWhile_idem _ _
    exact dropWhile_fix_of_append _ _ _ hAfix
  exact strip_fix _ h1 h2

/-- C9: the whitespace normalization both extractors apply to extracted
text — collapse every whitespace run to one space, then trim — is
idempotent: applying it twice equals applying it once. -/
theorem normalize_idempotent (s : String) :
    pyNormalize (pyNormalize s) = pyNormalize s := by
  show String.mk (pyStripList (collapseWS (pyStripList (collapseWS s.data)))) =
    String.mk (pyStripList (collapseWS s.data))
  have hch : List.Chain' RNW (pyStripList (collapseWS s.data)) :=
    strip_chain _ (collapse_chain _)
  have hsp : ∀ c ∈ pyStripList (collapseWS s.data), isPyWS c = true → c = ' ' :=
    fun c hc hw => collapse_ws_space _ c (strip_subset _ c hc) hw
  rw [collapse_fix _ hch hsp, strip_idem]

/-! ## Registry loading -/

theorem processRow_std (a b c : String) (r : List String) (ha : ¬a = "") :
    processRow stdHeader (a :: b :: c :: r) =
      .add (pyLower (pyStrip a)) ⟨pyStrip b, pyStrip c⟩ := by
  have h1 : rowLookup stdHeader (a :: b :: c :: r) "Document Name" = some (some a) := rfl
  have h2 : rowLookup stdHeader (a :: b :: c :: r) "Title" = some (some b) := rfl
  have h3 : rowLookup stdHeader (a :: b :: c :: r) "Web Link" = some (some c) := rfl
  unfold processRow
  rw [h1, h2, h3]
  simp [ha, getStr]

theorem loadRows_cells (header : List String) (r : List String)
    (rest : List RowEvent) (m : List (String × SPEntry)) :
    loadRows header (.cells r :: rest) m =
      match processRow header r with
      | .err => m
      | .skip => loadRows header rest m
      | .add k e => loadRows header rest (insertEntry m k e) := rfl

theorem insertEntry_not_mem (m : List (String × SPEntry)) (k : String) (e : SPEntry)
    (h : ∀ p ∈ m, p.1 ≠ k) : insertEntry m k e = m ++ [(k, e)] := by
  have hc : (m.any fun p => p.1 == k) = false := by
    rw [List.any_eq_false]
    intro p hp
    simpa using h p hp
  unfold insertEntry
  rw [hc]
  simp

theorem loadRows_stop (header : List String) (rest : List RowEvent) :
    ∀ (rows : List RowEvent) (m : List (String × SPEntry)),
      loadRows header (rows ++ .readError :: rest) m = loadRows header rows m
  | [], m => by simp [loadRows]
  | .readError :: rs, m => by simp [loadRows]
  | .cells r :: rs, m => by
    rw [List.cons_append, loadRows_cells, loadRows_cells]
    cases processRow header r with
    | err => rfl
    | skip => exact loadRows_stop header rest rs m
    | add k e => exact loadRows_stop header rest rs (insertEntry m k e)

/-- C2 (amended): the loader is a total function; a failure opening the
source yields the empty mapping, and an error at any later point of
reading yields exactly the mapping accumulated from the rows processed
before the error — not necessarily the empty mapping. -/
theorem load_error_partial :
    load_sharepoint_links .openError = [] ∧
    ∀ (header : List String) (rows rest : List RowEvent),
      load_sharepoint_links (.stream header (rows ++ .readError :: rest)) =
        load_sharepoint_links (.stream header rows) := by
  refine ⟨rfl, ?_⟩
  intro header rows rest
  exact loadRows_stop header rest rows []

/-- C2 counterexample: a read error after one good row leaves that row's
entry in the returned mapping, so an error during the load does not
always produce an empty mapping. -/
theorem load_error_partial_counterexample :
    load_sharepoint_links (.stream stdHeader [.cells ["a.pdf", "T", "L"], .readError]) =
      [("a.pdf", ⟨"T", "L"⟩)] ∧
    load_sharepoint_links (.stream stdHeader [.cells ["a.pdf", "T", "L"], .readError]) ≠ [] := by
  constructor
  · decide
  · decide

theorem loadRows_full :
    ∀ (rows : List (List String)) (m : List (String × SPEntry)),
      (∀ r ∈ rows, ∃ a b c t, r = a :: b :: c :: t ∧ a ≠ "") →
      (∀ r ∈ rows, ∀ p ∈ m, p.1 ≠ keyOfRow r) →
      (rows.map keyOfRow).Nodup →
      loadRows stdHeader (rows.map .cells) m = m ++ rows.map entryOfRow
  | [], m, _, _, _ => by simp [loadRows]
  | r :: rs, m, hshape, hdisj, hnodup => by
    obtain ⟨a, b, c, t, hr, hane⟩ := hshape r (by simp)
    subst hr
    rw [List.map_cons, loadRows_cells, processRow_std a b c t hane]
    have hkey : keyOfRow (a :: b :: c :: t) = pyLower (pyStrip a) := rfl
    show loadRows stdHeader (rs.map .cells)
      (insertEntry m (pyLower (pyStrip a)) ⟨pyStrip b, pyStrip c⟩) = _
    rw [insertEntry_not_mem m _ _ (by
      intro p hp
      rw [← hkey]
      exact hdisj _ (by simp) p hp)]
    have hdisj2 : ∀ r' ∈ rs,
        ∀ p ∈ m ++ [(pyLower (pyStrip a), (⟨pyStrip b, pyStrip c⟩ : SPEntry))],
          p.1 ≠ keyOfRow r' := by
      intro r' hr' p hp
      rcases List.mem_append.mp hp with h | h
      · exact hdisj r' (List.mem_cons_of_mem _ hr') p h
      · rcases List.mem_singleton.mp h with rfl
        show pyLower (pyStrip a) ≠ keyOfRow r'
        rw [← hkey]
        intro hEq
        exact (List.nodup_cons.mp (by simpa using hnodup)).1
          (List.mem_map.mpr ⟨r', hr', hEq.symm⟩)
    have hrec := loadRows_full rs
      (m ++ [(pyLower (pyStrip a), (⟨pyStrip b, pyStrip c⟩ : SPEntry))])
      (fun r' hr' => hshape r' (List.mem_cons_of_mem _ hr'))
      hdisj2
      (List.Nodup.of_cons (by simpa using hnodup))
    rw [hrec, List.append_assoc]
    rfl

/-- C3 (amended): for a source with the standard header whose rows each
supply all three cells with a non-empty document-name cell, and whose
trimmed-lowercased document names are pairwise distinct, `load` returns
exactly one entry per row, in order, keyed by the trimmed-lowercased
document name with the title and web-link values trimmed.  (Without the
distinctness condition a later duplicate overwrites an earlier row, and a
row missing the title or web-link cell aborts the load part-way.) -/
theorem load_wellformed (rows : List (List String))
    (hshape : ∀ r ∈ rows, ∃ a b c t, r = a :: b :: c :: t ∧ a ≠ "")
    (hnodup : (rows.map keyOfRow).Nodup) :
    load_sharepoint_links (.stream stdHeader (rows.map .cells)) =
      rows.map entryOfRow := by
  show loadRows stdHeader (rows.map .cells) [] = rows.map entryOfRow
  rw [loadRows_full rows [] hshape (by simp) hnodup]
  rfl

/-- C3 witness: a two-row source with distinct names loads to the two
trimmed entries in row order. -/
theorem load_wellformed_witness :
    load_sharepoint_links (.stream stdHeader
      [.cells ["A.pdf ", " T1", "L1 "], .cells ["b.pdf", "T2", "L2"]]) =
      [("a.pdf", ⟨"T1", "L1"⟩), ("b.pdf", ⟨"T2", "L2"⟩)] := by
  have h := load_wellformed [["A.pdf ", " T1", "L1 "], ["b.pdf", "T2", "L2"]]
    (by
      intro r hr
      rcases List.mem_cons.mp hr with hr | hr
      · exact ⟨"A.pdf ", " T1", "L1 ", [], hr, by decide⟩
      · rcases List.mem_cons.mp hr with hr | hr
        · exact ⟨"b.pdf", "T2", "L2", [], hr, by decide⟩
        · simp at hr)
    (by decide)
  show load_sharepoint_links (.stream stdHeader
    (List.map RowEvent.cells [["A.pdf ", " T1", "L1 "], ["b.pdf", "T2", "L2"]])) = _
  rw [h]
  decide

/-- C3 counterexample: two rows whose document names normalize to the same
key yield a single entry, not one entry per row. -/
theorem load_one_per_row_counterexample :
    load_sharepoint_links (.stream stdHeader
      [.cells ["a.pdf", "T1", "L1"], .cells ["a.pdf", "T2", "L2"]]) =
      [("a.pdf", ⟨"T2", "L2"⟩)] ∧
    (load_sharepoint_links (.stream stdHeader
      [.cells ["a.pdf", "T1", "L1"], .cells ["a.pdf", "T2", "L2"]])).length ≠ 2 := by
  constructor
  · decide
  · decide

/-- C10: when two rows normalize to the same key, the mapping holds exactly
one entry for that key, with the later row's trimmed title and web link;
the earlier row's values are overwritten. -/
theorem load_duplicate_last_wins (n1 t1 l1 n2 t2 l2 : String)
    (h1 : n1 ≠ "") (h2 : n2 ≠ "")
    (hk : pyLower (pyStrip n1) = pyLower (pyStrip n2)) :
    load_sharepoint_links (.stream stdHeader
      [.cells [n1, t1, l1], .cells [n2, t2, l2]]) =
      [(pyLower (pyStrip n2), ⟨pyStrip t2, pyStrip l2⟩)] := by
  show loadRows stdHeader [.cells [n1, t1, l1], .cells [n2, t2, l2]] [] = _
  rw [loadRows_cells, processRow_std n1 t1 l1 [] h1]
  show loadRows stdHeader [.cells [n2, t2, l2]]
    (insertEntry [] (pyLower (pyStrip n1)) ⟨pyStrip t1, pyStrip l1⟩) = _
  rw [loadRows_cells, processRow_std n2 t2 l2 [] h2]
  show loadRows stdHeader []
    (insertEntry (insertEntry [] (pyLower (pyStrip n1)) ⟨pyStrip t1, pyStrip l1⟩)
      (pyLower (pyStrip n2)) ⟨pyStrip t2, pyStrip l2⟩) = _
  rw [hk]
  simp [insertEntry, loadRows]

/-- C10 witness: `A.pdf ` and `a.pdf` normalize to the same key; the second
row's values survive. -/
theorem load_duplicate_last_wins_witness :
    load_sharepoint_links (.stream stdHeader
      [.cells ["A.pdf ", "T1", "L1"], .cells ["a.pdf", "T2", "L2"]]) =
      [("a.pdf", ⟨"T2", "L2"⟩)] := by
  have h := load_duplicate_last_wins "A.pdf " "T1" "L1" "a.pdf" "T2" "L2"
    (by decide) (by decide) (by decide)
  rw [h]
  decide

/-! ## The two extractors -/

theorem extract_pdf_ok (pdf_path : String) (links : List (String × SPEntry))
    (doc : PdfDoc) :
    extract_pdf_info pdf_path links (.ok doc) =
      doc.pages.enum.map (fun ip =>
        { source_type := .pdf
          document_title :=
            match spGet links (pyLower (pyStrip (basename pdf_path))) with
            | some e => e.title
            | none =>
              match doc.metaTitle with
              | some t =>
                if t ≠ "" then t else splitextStem (pyStrip (basename pdf_path))
              | none => splitextStem (pyStrip (basename pdf_path))
          page_number := some (ip.1 + 1)
          text := pyNormalize (ip.2.getD "")
          web_link :=
            match spGet links (pyLower (pyStrip (basename pdf_path))) with
            | some e => if e.web_link ≠ "" then some e.web_link else none
            | none => none
          url := none }) := rfl

theorem extract_web_ok (url : String) (page : WebPage) :
    extract_web_info url (.ok page) =
      [{ source_type := .web
         document_title :=
           match page.titleTag with
           | some t => pyStrip t
           | none => url
         page_number := none
         text := pyNormalize (String.intercalate " " page.strippedStrings)
         web_link := none
         url := some url }] := rfl

theorem enumFrom_map_index {α β : Type} (g : Nat → β) :
    ∀ (n : Nat) (l : List α),
      (l.enumFrom n).map (fun ip => g ip.1) = (List.range' n l.length).map g
  | _, [] => rfl
  | n, a :: t => by
    simp only [List.enumFrom, List.map_cons, List.length_cons, List.range']
    rw [enumFrom_map_index g (n + 1) t]

theorem range'_map_some_shift : ∀ (n s : Nat),
    (List.range' (s + 1) n).map some = (List.range' s n).map (fun i => some (i + 1))
  | 0, _ => rfl
  | n + 1, s => by
    simp only [List.range', List.map_cons]
    rw [range'_map_some_shift n (s + 1)]

/-- C4: a PDF that opens and parses successfully yields exactly one record
per page, and the `page_number` fields in emission order are exactly
`1, 2, ..., n`. -/
theorem extract_pdf_page_numbers (pdf_path : String)
    (links : List (String × SPEntry)) (doc : PdfDoc) :
    (extract_pdf_info pdf_path links (.ok doc)).length = doc.pages.length ∧
    (extract_pdf_info pdf_path links (.ok doc)).map (fun r => r.page_number) =
      (List.range' 1 doc.pages.length).map some := by
  rw [extract_pdf_ok]
  constructor
  · rw [List.length_map]
    exact List.enumFrom_length
  · rw [List.map_map]
    calc (doc.pages.enum.map _)
        = (List.range' 0 doc.pages.length).map (fun i => some (i + 1)) := by
          refine Eq.trans ?_ (enumFrom_map_index (fun i => some (i + 1)) 0 doc.pages)
          rfl
      _ = (List.range' 1 doc.pages.length).map some :=
          (range'_map_some_shift doc.pages.length 0).symm

/-- C5: an emitted PDF record carries `web_link` iff the registry has an
entry for the PDF's trimmed-lowercased basename whose `web_link` is
non-empty, and in that case every record of the PDF carries the registry's
`web_link` value. -/
theorem extract_pdf_web_link_iff (pdf_path : String)
    (links : List (String × SPEntry)) (opened : Except Unit PdfDoc) :
    ∀ r ∈ extract_pdf_info pdf_path links opened,
      ((r.web_link).isSome ↔
        ∃ e, spGet links (pyLower (pyStrip (basename pdf_path))) = some e ∧
          e.web_link ≠ "") ∧
      ∀ e, spGet links (pyLower (pyStrip (basename pdf_path))) = some e →
        e.web_link ≠ "" → r.web_link = some e.web_link := by
  intro r hr
  cases opened with
  | error e => simp [extract_pdf_info] at hr
  | ok doc =>
    rw [extract_pdf_ok] at hr
    obtain ⟨ip, _, rfl⟩ := List.mem_map.mp hr
    rcases hsp : spGet links (pyLower (pyStrip (basename pdf_path))) with _ | e
    · refine ⟨by simp [hsp], ?_⟩
      intro e he
      simp at he
    · by_cases hw : e.web_link = ""
      · refine ⟨by simp [hsp, hw], ?_⟩
        intro e' he' hne
        obtain rfl : e = e' := Option.some.inj he'
        exact absurd hw hne
      · refine ⟨by simp [hsp, hw], ?_⟩
        intro e' he' _
        obtain rfl : e = e' := Option.some.inj he'
        simp [hw]

/-- C5 witness: with registry entry `a.pdf -> (T, L)` the single emitted
record carries `web_link = L`. -/
theorem extract_pdf_web_link_iff_witness :
    (((⟨.pdf, "T", some 1, "x", some "L", none⟩ : CitationRecord).web_link).isSome ↔
      ∃ e, spGet [("a.pdf", (⟨"T", "L"⟩ : SPEntry))]
          (pyLower (pyStrip (basename "a.pdf"))) = some e ∧ e.web_link ≠ "") ∧
    ∀ e, spGet [("a.pdf", (⟨"T", "L"⟩ : SPEntry))]
        (pyLower (pyStrip (basename "a.pdf"))) = some e →
      e.web_link ≠ "" →
      (⟨.pdf, "T", some 1, "x", some "L", none⟩ : CitationRecord).web_link =
        some e.web_link :=
  extract_pdf_web_link_iff "a.pdf" [("a.pdf", ⟨"T", "L"⟩)] (.ok ⟨none, [some "x"]⟩)
    ⟨.pdf, "T", some 1, "x", some "L", none⟩ (by decide)

/-- C1 (amended): when a registry entry exists for the trimmed-lowercased
basename, the resolved title is that entry's title verbatim — even when it
is empty; only when no entry exists does the fallback chain apply: the
embedded metadata title when present and non-empty, otherwise the filename
without extension. -/
theorem pdf_title_resolution (pdf_path : String)
    (links : List (String × SPEntry)) (doc : PdfDoc) :
    (∀ e, spGet links (pyLower (pyStrip (basename pdf_path))) = some e →
      ∀ r ∈ extract_pdf_info pdf_path links (.ok doc),
        r.document_title = e.title) ∧
    (spGet links (pyLower (pyStrip (basename pdf_path))) = none →
      (∀ t, doc.metaTitle = some t → t ≠ "" →
        ∀ r ∈ extract_pdf_info pdf_path links (.ok doc),
          r.document_title = t) ∧
      ((doc.metaTitle = none ∨ doc.metaTitle = some "") →
        ∀ r ∈ extract_pdf_info pdf_path links (.ok doc),
          r.document_title = splitextStem (pyStrip (basename pdf_path)))) := by
  refine ⟨?_, ?_⟩
  · intro e he r hr
    rw [extract_pdf_ok] at hr
    obtain ⟨ip, _, rfl⟩ := List.mem_map.mp hr
    simp [he]
  · intro hnone
    refine ⟨?_, ?_⟩
    · intro t ht hne r hr
      rw [extract_pdf_ok] at hr
      obtain ⟨ip, _, rfl⟩ := List.mem_map.mp hr
      simp [hnone, ht, hne]
    · intro hmt r hr
      rw [extract_pdf_ok] at hr
      obtain ⟨ip, _, rfl⟩ := List.mem_map.mp hr
      rcases hmt with h | h
      · simp [hnone, h]
      · simp [hnone, h]

/-- C1 witness: with registry entry `a.pdf -> (RT, L)` the emitted record's
title is the registry title `RT`. -/
theorem pdf_title_resolution_witness :
    (⟨.pdf, "RT", some 1, "x", some "L", none⟩ : CitationRecord).document_title =
      SPEntry.title ⟨"RT", "L"⟩ :=
  (pdf_title_resolution "a.pdf" [("a.pdf", ⟨"RT", "L"⟩)] ⟨some "Meta", [some "x"]⟩).1
    ⟨"RT", "L"⟩ (by decide) ⟨.pdf, "RT", some 1, "x", some "L", none⟩ (by decide)

/-- C1 counterexample: a registry entry with an empty title and a PDF whose
metadata title is `Meta`: the resolved title is the empty string, not the
metadata title, so the claimed precedence fails when the registry title is
empty. -/
theorem pdf_title_counterexample :
    (extract_pdf_info "a.pdf" [("a.pdf", ⟨"", "L"⟩)]
      (.ok ⟨some "Meta", [some "x"]⟩)).map (fun r => r.document_title) = [""] ∧
    ("" : String) ≠ "Meta" := by
  constructor
  · decide
  · decide

/-- C6 (amended): for a successfully fetched page the resolved title is the
trimmed text of the title element whenever that element is present — even
when the trimmed text is empty — and the URL only when the element is
absent. -/
theorem web_title_resolution (url : String) (page : WebPage) :
    (∀ t, page.titleTag = some t →
      ∀ r ∈ extract_web_info url (.ok page), r.document_title = pyStrip t) ∧
    (page.titleTag = none →
      ∀ r ∈ extract_web_info url (.ok page), r.document_title = url) := by
  constructor
  · intro t ht r hr
    rw [extract_web_ok] at hr
    rcases List.mem_singleton.mp hr with rfl
    simp [ht]
  · intro ht r hr
    rw [extract_web_ok] at hr
    rcases List.mem_singleton.mp hr with rfl
    simp [ht]

/-- C6 witness: a page with title text `Example` resolves to the trimmed
title. -/
theorem web_title_resolution_witness :
    (⟨.web, "Example", none, "hello", none,
      some "https://e.com"⟩ : CitationRecord).document_title = pyStrip "Example" :=
  (web_title_resolution "https://e.com" ⟨some "Example", ["hello"]⟩).1 "Example" rfl
    ⟨.web, "Example", none, "hello", none, some "https://e.com"⟩ (by decide)

/-- C6 counterexample: a present title element whose text trims to empty
yields the empty string as `document_title`, not the URL. -/
theorem web_title_counterexample :
    pyStrip " " = "" ∧
    (extract_web_info "https://x" (.ok ⟨some " ", ["a"]⟩)).map
      (fun r => r.document_title) = [""] ∧
    ("" : String) ≠ "https://x" := by
  refine ⟨by decide, by decide, by decide⟩

/-- C7: the web extractor is total and returns at most one record: zero
records on any fetch failure, and on success exactly one record with
`source_type = web`, `page_number` absent and `url` the original input
URL. -/
theorem extract_web_total (url : String) (fetched : Except Unit WebPage) :
    (extract_web_info url fetched).length ≤ 1 ∧
    (∀ e, fetched = .error e → extract_web_info url fetched = []) ∧
    (∀ page, fetched = .ok page →
      ∃ r, extract_web_info url fetched = [r] ∧ r.source_type = .web ∧
        r.page_number = none ∧ r.url = some url) := by
  refine ⟨?_, ?_, ?_⟩
  · cases fetched with
    | error e => simp [extract_web_info]
    | ok page =>
      rw [extract_web_ok]
      simp
  · rintro e rfl
    rfl
  · rintro page rfl
    rw [extract_web_ok]
    exact ⟨_, rfl, rfl, rfl, rfl⟩

/-- C7 witness: a successful fetch of `https://e.com` yields exactly one
web record carrying the input URL. -/
theorem extract_web_total_witness :
    (extract_web_info "https://e.com" (.ok ⟨some "Example", ["hello"]⟩)).length ≤ 1 ∧
    ∃ r, extract_web_info "https://e.com" (.ok ⟨some "Example", ["hello"]⟩) = [r] ∧
      r.source_type = .web ∧ r.page_number = none ∧ r.url = some "https://e.com" :=
  ⟨(extract_web_total "https://e.com" (.ok ⟨some "Example", ["hello"]⟩)).1,
   (extract_web_total "https://e.com" (.ok ⟨some "Example", ["hello"]⟩)).2.2 _ rfl⟩

/-- C8: every record either extractor emits has `source_type`,
`document_title` and `text` present by construction (total fields of the
record type), carries a `page_number` exactly when its `source_type` is
`pdf`, and carries a `url` exactly when its `source_type` is `web`. -/
theorem record_field_invariant (pdf_path web_url : String)
    (links : List (String × SPEntry)) (opened : Except Unit PdfDoc)
    (fetched : Except Unit WebPage) :
    ∀ r, (r ∈ extract_pdf_info pdf_path links opened ∨
          r ∈ extract_web_info web_url fetched) →
      ((r.page_number).isSome ↔ r.source_type = .pdf) ∧
      ((r.url).isSome ↔ r.source_type = .web) := by
  rintro r (hr | hr)
  · cases opened with
    | error e => simp [extract_pdf_info] at hr
    | ok doc =>
      rw [extract_pdf_ok] at hr
      obtain ⟨ip, _, rfl⟩ := List.mem_map.mp hr
      constructor <;> simp
  · cases fetched with
    | error e => simp [extract_web_info] at hr
    | ok page =>
      rw [extract_web_ok] at hr
      rcases List.mem_singleton.mp hr with rfl
      constructor <;> simp

/-- C8 witness: the record of a one-page PDF with no registry match
satisfies both presence equivalences. -/
theorem record_field_invariant_witness :
    (((⟨.pdf, "a", some 1, "x", none, none⟩ : CitationRecord).page_number).isSome ↔
      (⟨.pdf, "a", some 1, "x", none, none⟩ : CitationRecord).source_type = .pdf) ∧
    (((⟨.pdf, "a", some 1, "x", none, none⟩ : CitationRecord).url).isSome ↔
      (⟨.pdf, "a", some 1, "x", none, none⟩ : CitationRecord).source_type = .web) :=
  record_field_invariant "a.pdf" "u" [] (.ok ⟨none, [some "x"]⟩) (.error ())
    ⟨.pdf, "a", some 1, "x", none, none⟩ (Or.inl (by decide))

end PdfToGpt
